import Mathlib

/-
Verification of the kr/fs package.

The development embeds walk.go (the Walker iterator over a filesystem
tree) and filesystem.go (the Join path utility).  The Walker wraps the
Go standard library function filepath.Walk running in a background
goroutine, coupled to the caller by two channels: itemch, an unbuffered
channel of items closed by the producer at the end of the walk, and
retch, a one-slot buffered channel of Go error values carrying the
directive for the current item back to the producer.  Because the
producer blocks after sending each item until its directive arrives,
the whole two-thread system is deterministic and is embedded here as an
explicit state machine: the producer side is an explicit stack of
traversal frames (the resumable form of filepath.Walk's recursion), the
one-slot retch buffer is an Option field, and each exported operation
of walk.go becomes a function on the combined state.  An operation of
the Go code that can block forever or panic returns Option, with none
for the stuck or panicking execution.
-/

namespace KrFs

/-- Metadata of os.FileInfo as the Walker observes it: walk.go only calls
IsDir() on it and hands the value back opaquely from Stat. -/
structure FileInfo where
  isDir : Bool
deriving DecidableEq

/-- Mirror of the item struct of walk.go: path, info, err.  A Go nil
os.FileInfo interface or nil error is Option.none. -/
structure Item where
  path : String
  info : Option FileInfo
  err : Option String
deriving DecidableEq

/-- Non-nil Go error values that travel through the Walker: filepath.SkipDir
set by SkipDir, and the sentinel error created by Stop. -/
inductive GoErr where
  | skipDir
  | stop
deriving DecidableEq

/-- Zero value of the item struct: the cur field of new(Walker), and the
value received from the closed item channel. -/
def zeroItem : Item := { path := "", info := none, err := none }

mutual
/-- Modelled from the filesystem seen by filepath.Walk (Go standard
library), which walk.go wraps: a node is a plain file, a node whose
lstat fails (statErr, carrying the error message), a readable directory
with its listing in ReadDir order, or a directory whose ReadDir fails
(badDir: lstat succeeded, listing did not; its real children are
recorded but unreadable).  The real ReadDir returns the listing sorted
by name; sortedness is a hypothesis where a claim needs it. -/
inductive FsNode where
  | file (name : String)
  | statErr (name : String) (e : String)
  | dir (name : String) (children : FsList)
  | badDir (name : String) (e : String) (children : FsList)
deriving DecidableEq

/-- Sibling list of nodes, in ReadDir listing order. -/
inductive FsList where
  | nil
  | cons (hd : FsNode) (tl : FsList)
deriving DecidableEq
end

/-- Name of a node. -/
def FsNode.name : FsNode → String
  | .file n => n
  | .statErr n _ => n
  | .dir n _ => n
  | .badDir n _ _ => n

/-- Names of a sibling list, in listing order. -/
def FsList.names : FsList → List String
  | .nil => []
  | .cons n ns => n.name :: ns.names

/-- Path building of filepath.Walk: filepath.Join(dir, name).  For a
clean parent path and a plain entry name — the only arguments
filepath.Walk ever passes — this is concatenation with one
separator (the os.PathSeparator of the package fs FileSystem). -/
def joinPath (p n : String) : String := p ++ "/" ++ n

/-- Item that walk.go's recv callback packages for one visited child
node: a file delivers its metadata, a stat failure delivers nil
metadata together with the error, a directory delivers its metadata,
an unreadable directory delivers its metadata together with the
ReadDir error (filepath.Walk calls walkFn with that error). -/
def mkItem (p : String) : FsNode → Item
  | .file n => { path := joinPath p n, info := some { isDir := false }, err := none }
  | .statErr n e => { path := joinPath p n, info := none, err := some e }
  | .dir n _ => { path := joinPath p n, info := some { isDir := true }, err := none }
  | .badDir n e _ => { path := joinPath p n, info := some { isDir := true }, err := some e }

mutual
/-- Expected trace of filepath.Walk below parent path p under
all-continue directives: pre-order, children in listing order, and the
children of an unreadable directory never visited (filepath.Walk
returns before its loop when ReadDir failed). -/
def nodeItems (p : String) : FsNode → List Item
  | .dir n cs => mkItem p (.dir n cs) :: listItems (joinPath p n) cs
  | t => [mkItem p t]

/-- Concatenated traces of a sibling list. -/
def listItems (p : String) : FsList → List Item
  | .nil => []
  | .cons n ns => nodeItems p n ++ listItems p ns
end

mutual
/-- Number of nodes filepath.Walk visits in a subtree: every node counts
one; the children of an unreadable directory are never visited and do
not count. -/
def FsNode.size : FsNode → Nat
  | .dir _ cs => 1 + cs.size
  | _ => 1

/-- Total visited size of a sibling list. -/
def FsList.size : FsList → Nat
  | .nil => 0
  | .cons n ns => n.size + ns.size
end

/-- Item delivered for the walk root: filepath.Walk passes the root
argument itself as the path of the first callback, also when lstat of
the root fails (then with nil metadata and the lstat error). -/
def rootItem (root : String) (t : FsNode) : Item :=
  { mkItem root t with path := root }

/-- Expected full trace of Walk(root) over the tree t. -/
def rootItems (root : String) : FsNode → List Item
  | .dir n cs => rootItem root (.dir n cs) :: listItems root cs
  | t => [rootItem root t]

/-- Continuation of the producer for the node whose item was just
delivered, determining what the directive for it does.  fileK: a
SkipDir directive abandons the remaining entries of the containing
directory (filepath.Walk propagates SkipDir returned below a
non-directory up one level before swallowing it); errK: a node visited
with an error attached (stat failure or unreadable directory), where a
SkipDir is swallowed in place and there is never a descent; dirK: a
readable directory with the given path and children, where a continue
directive descends. -/
inductive PendKind where
  | fileK
  | errK
  | dirK (path : String) (children : FsList)
deriving DecidableEq

/-- Continuation kind of a child node. -/
def mkKind (p : String) : FsNode → PendKind
  | .file _ => .fileK
  | .statErr _ _ => .errK
  | .dir n cs => .dirK (joinPath p n) cs
  | .badDir _ _ _ => .errK

/-- Continuation kind of the root node. -/
def rootKind (root : String) : FsNode → PendKind
  | .file _ => .fileK
  | .statErr _ _ => .errK
  | .dir _ cs => .dirK root cs
  | .badDir _ _ _ => .errK

/-- Stack of pending traversal frames (parent path, remaining
siblings), innermost frame first: the explicit resumable form of
filepath.Walk's recursion. -/
abbrev Stack := List (String × FsList)

/-- Items still to be delivered from a stack. -/
def stackItems : Stack → List Item
  | [] => []
  | (p, ns) :: rest => listItems p ns ++ stackItems rest

/-- Stack after a continue directive: a readable directory pushes its
children frame, every other node leaves the stack unchanged. -/
def contStack (k : PendKind) (st : Stack) : Stack :=
  match k with
  | .dirK p cs => (p, cs) :: st
  | _ => st

/-- Effect on the traversal of the directive d for the current node,
from filepath.Walk: the stop error (any error other than SkipDir
returned by the callback) aborts the whole walk, none; SkipDir on a
file abandons the rest of its directory frame, on an error node it is
swallowed in place, on a directory it prevents the descent; nil
(continue) descends into a readable directory. -/
def afterDirective (d : Option GoErr) (k : PendKind) (st : Stack) : Option Stack :=
  match d with
  | some .stop => none
  | some .skipDir =>
    match k with
    | .fileK => some st.tail
    | _ => some st
  | none => some (contStack k st)

/-- State of the producer goroutine: blocked sending an item on itemch,
blocked receiving a directive on retch, or finished with itemch
closed (filepath.Walk returned and the goroutine ran close). -/
inductive Producer where
  | sending (it : Item) (k : PendKind) (st : Stack)
  | waiting (k : PendKind) (st : Stack)
  | closed
deriving DecidableEq

/-- Next node the producer visits from a stack, dropping exhausted
frames on the way. -/
def popNext : Stack → Option ((String × FsNode) × Stack)
  | [] => none
  | (_, .nil) :: rest => popNext rest
  | (p, .cons n ns) :: rest => some ((p, n), (p, ns) :: rest)

/-- Producer after its directive has been applied: an aborted walk
closes the channel; otherwise the producer computes the next pending
node and blocks sending its item, or closes at exhaustion. -/
def resume (ost : Option Stack) : Producer :=
  match ost with
  | none => .closed
  | some st =>
    match popNext st with
    | none => .closed
    | some ((p, n), st₂) => .sending (mkItem p n) (mkKind p n) st₂

/-- Combined state of walk.go's Walker and its background goroutine:
cur, ok and ret are the Walker struct fields; retBuf is the content of
the one-slot retch buffer (some d means the buffer holds the Go error
value d, where d = none is a nil error); producer is the goroutine. -/
structure Walker where
  producer : Producer
  retBuf : Option (Option GoErr)
  cur : Item
  ok : Bool
  ret : Option GoErr
deriving DecidableEq

/-- Asynchronous progress the producer makes on its own between calls:
a producer blocked receiving on retch consumes a buffered directive at
once. -/
def settle (w : Walker) : Walker :=
  match w.producer, w.retBuf with
  | .waiting k st, some d =>
    { w with producer := resume (afterDirective d k st), retBuf := none }
  | _, _ => w

/-- Walk(root) of walk.go run against the tree t: a zero-value Walker
(new(Walker)) whose producer goroutine is about to send the root item —
filepath.Walk always delivers the root path first, also when lstat of
the root fails. -/
def Walk (root : String) (t : FsNode) : Walker :=
  { producer := .sending (rootItem root t) (rootKind root t) []
    retBuf := none
    cur := zeroItem
    ok := false
    ret := none }

/-- Step of walk.go.  When w.ok, first send w.ret on retch: delivered
directly to a producer blocked on retch, or placed in the empty buffer;
when the buffer is already full and nobody ever receives, the send
blocks forever, result none.  Then receive from itemch: a pending item
is stored in cur with ok true (result true); on a closed channel the
zero item is stored with ok false (result false); when the producer
neither sends nor has closed, the receive blocks forever, none. -/
def Step (w : Walker) : Option (Walker × Bool) :=
  let w₁? : Option Walker :=
    if w.ok then
      match w.producer, w.retBuf with
      | .waiting k st, none =>
        some { w with producer := resume (afterDirective w.ret k st) }
      | .waiting k st, some d =>
        some { w with producer := resume (afterDirective d k st), retBuf := some w.ret }
      | _, none => some { w with retBuf := some w.ret }
      | _, some _ => none
    else some w
  match w₁? with
  | none => none
  | some w₁ =>
    match w₁.producer with
    | .sending it k st =>
      some (settle { w₁ with producer := .waiting k st, cur := it, ok := true, ret := none }, true)
    | .closed =>
      some ({ w₁ with cur := zeroItem, ok := false, ret := none }, false)
    | .waiting _ _ => none

/-- Path of walk.go: the path of the current item. -/
def Path (w : Walker) : String := w.cur.path

/-- Stat of walk.go: the metadata of the current item. -/
def Stat (w : Walker) : Option FileInfo := w.cur.info

/-- Err of walk.go: the error of the current item. -/
def Err (w : Walker) : Option String := w.cur.err

/-- SkipDir of walk.go: if w.ok && w.cur.info.IsDir() then set ret to
filepath.SkipDir.  Calling IsDir on a nil os.FileInfo interface panics
at run time; the panicking execution is the result none. -/
def SkipDir (w : Walker) : Option Walker :=
  if w.ok then
    match w.cur.info with
    | none => none
    | some i => if i.isDir then some { w with ret := some .skipDir } else some w
  else some w

/-- Stop of walk.go: a non-blocking send (select with default) of the
stop error on retch — taken at once by a producer blocked on retch,
otherwise placed in the buffer when empty, and dropped when the buffer
is already full. -/
def Stop (w : Walker) : Walker :=
  match w.retBuf with
  | some _ => w
  | none => settle { w with retBuf := some (some GoErr.stop) }

/-- Drive the Walker: Step repeatedly while it returns true, collecting
the delivered items, stopping also when fuel runs out or a Step blocks
forever.  Returns the items and the final Walker state. -/
def run : Nat → Walker → List Item × Walker
  | 0, w => ([], w)
  | n+1, w =>
    match Step w with
    | some (w₂, true) =>
      let r := run n w₂
      (w₂.cur :: r.1, r.2)
    | some (w₂, false) => ([], w₂)
    | none => ([], w)

/-- Canonical state of the Walker between two Steps of a drive: the
item cur was just delivered, the producer waits for its directive, the
buffer is empty and no directive has been requested yet. -/
def ready (k : PendKind) (st : Stack) (cur : Item) : Walker :=
  { producer := .waiting k st, retBuf := none, cur := cur, ok := true, ret := none }

/-- State after a Step returned false at natural exhaustion: the walk
ended, itemch is closed and cur holds the zero item. -/
def deadW : Walker :=
  { producer := .closed, retBuf := none, cur := zeroItem, ok := false, ret := none }

/-- Join of filesystem.go, parameterized by the separator string (the
FileSystem's PathSeparator) and by filepath.Clean of the Go standard
library, kept abstract: scan for the first non-empty element; from the
first one found, join the remaining elements with the separator and
Clean the result; when every element is empty return the empty
string. -/
def Join (clean : String → String) (sep : String) : List String → String
  | [] => ""
  | e :: rest =>
    if e ≠ "" then clean (String.intercalate sep (e :: rest))
    else Join clean sep rest

/-- Trace of a single node is never empty: every visited node delivers
its own item first. -/
theorem nodeItems_ne_nil (p : String) (n : FsNode) : nodeItems p n ≠ [] := by
  cases n <;> simp [nodeItems]

/-- A stack with no next node has no items left. -/
theorem popNext_none {st : Stack} (h : popNext st = none) : stackItems st = [] := by
  induction st with
  | nil => rfl
  | cons fr rest ih =>
    obtain ⟨p, ns⟩ := fr
    cases ns with
    | nil =>
      rw [popNext] at h
      simp [stackItems, listItems, ih h]
    | cons n ns => simp [popNext] at h

/-- A stack with items left has a next node. -/
theorem popNext_of_ne {st : Stack} (h : stackItems st ≠ []) :
    ∃ p n st₂, popNext st = some ((p, n), st₂) := by
  cases hp : popNext st with
  | none => exact absurd (popNext_none hp) h
  | some pr => obtain ⟨⟨p, n⟩, st₂⟩ := pr; exact ⟨p, n, st₂, rfl⟩

/-- Taking the next node decomposes the pending items: the node's whole
subtree trace comes first. -/
theorem popNext_some {st : Stack} {p : String} {n : FsNode} {st₂ : Stack}
    (h : popNext st = some ((p, n), st₂)) :
    stackItems st = nodeItems p n ++ stackItems st₂ := by
  induction st with
  | nil => simp [popNext] at h
  | cons fr rest ih =>
    obtain ⟨q, ns⟩ := fr
    cases ns with
    | nil =>
      rw [popNext] at h
      simp [stackItems, listItems, ih h]
    | cons m ms =>
      rw [popNext] at h
      injection h with h
      obtain ⟨h₁, h₂⟩ := Prod.mk.injEq .. ▸ h
      obtain ⟨hq, hm⟩ := Prod.mk.injEq .. ▸ h₁
      subst hq hm h₂
      simp [stackItems, listItems]

/-- Subtree trace of a node in front of a stack: the node's own item,
then the items of the stack extended by the node's continuation. -/
theorem nodeItems_eq_cons (p : String) (n : FsNode) (st : Stack) :
    nodeItems p n ++ stackItems st = mkItem p n :: stackItems (contStack (mkKind p n) st) := by
  cases n <;> simp [nodeItems, mkKind, contStack, stackItems]

/-- Expected full trace, decomposed the same way at the root. -/
theorem rootItems_eq (root : String) (t : FsNode) :
    rootItems root t = rootItem root t :: stackItems (contStack (rootKind root t) []) := by
  cases t <;> simp [rootItems, rootKind, contStack, stackItems]

/-- Step from a canonical mid-walk state: the continue directive is
sent, the producer resumes, and either the next pending node's item
arrives (true) or the walk closes at exhaustion (false). -/
theorem Step_ready (k : PendKind) (st : Stack) (cur : Item) :
    Step (ready k st cur) =
      match popNext (contStack k st) with
      | none => some (deadW, false)
      | some ((p, n), st₂) => some (ready (mkKind p n) st₂ (mkItem p n), true) := by
  cases h : popNext (contStack k st) with
  | none => simp [Step, ready, resume, afterDirective, settle, deadW, h]
  | some pr =>
    obtain ⟨⟨p, n⟩, st₂⟩ := pr
    simp [Step, ready, resume, afterDirective, settle, h]

/-- Driving from a canonical state with exactly as much fuel as there
are pending items delivers precisely those items, in order, and ends in
a canonical state with nothing pending. -/
theorem run_ready (n : Nat) :
    ∀ (k : PendKind) (st : Stack) (cur : Item),
      n = (stackItems (contStack k st)).length →
      ∃ kf stf curf,
        run n (ready k st cur) = (stackItems (contStack k st), ready kf stf curf) ∧
        stackItems (contStack kf stf) = [] := by
  induction n with
  | zero =>
    intro k st cur h
    have hnil : stackItems (contStack k st) = [] :=
      List.length_eq_zero.mp h.symm
    exact ⟨k, st, cur, by simp [run, hnil], hnil⟩
  | succ n ih =>
    intro k st cur h
    have hne : stackItems (contStack k st) ≠ [] := by
      intro hc; rw [hc] at h; simp at h
    obtain ⟨p, nd, st₂, hpop⟩ := popNext_of_ne hne
    have hdec : stackItems (contStack k st) =
        mkItem p nd :: stackItems (contStack (mkKind p nd) st₂) := by
      rw [popNext_some hpop, nodeItems_eq_cons]
    have hlen : n = (stackItems (contStack (mkKind p nd) st₂)).length := by
      rw [hdec] at h; simpa using h
    obtain ⟨kf, stf, curf, hrun, hf⟩ := ih (mkKind p nd) st₂ (mkItem p nd) hlen
    refine ⟨kf, stf, curf, ?_, hf⟩
    rw [run, Step_ready, hpop]
    simp only [hrun]
    simp [ready, hdec]

/-- Step from a canonical state with nothing pending returns false and
lands in the dead state. -/
theorem Step_ready_done (k : PendKind) (st : Stack) (cur : Item)
    (h : stackItems (contStack k st) = []) :
    Step (ready k st cur) = some (deadW, false) := by
  rw [Step_ready]
  cases hp : popNext (contStack k st) with
  | none => rfl
  | some pr =>
    obtain ⟨⟨p, n⟩, st₂⟩ := pr
    rw [popNext_some hp] at h
    exact absurd (List.append_eq_nil.mp h).1 (nodeItems_ne_nil p n)

/-- First Step on a fresh Walker: the root item arrives. -/
theorem Step_Walk (root : String) (t : FsNode) :
    Step (Walk root t) = some (ready (rootKind root t) [] (rootItem root t), true) := rfl

mutual
/-- Length of a node's trace is its visited size. -/
theorem nodeItems_length : ∀ (p : String) (n : FsNode), (nodeItems p n).length = n.size
  | _, .file _ => rfl
  | _, .statErr _ _ => rfl
  | _, .badDir _ _ _ => rfl
  | p, .dir nm cs => by
    simp [nodeItems, FsNode.size, listItems_length (joinPath p nm) cs, Nat.add_comm]

/-- Length of a sibling-list trace. -/
theorem listItems_length : ∀ (p : String) (cs : FsList), (listItems p cs).length = cs.size
  | _, .nil => rfl
  | p, .cons n ns => by
    simp [listItems, FsList.size, nodeItems_length p n, listItems_length p ns]
end

/-- Length of the full expected trace. -/
theorem rootItems_length (root : String) (t : FsNode) :
    (rootItems root t).length = t.size := by
  cases t <;>
    simp [rootItems, FsNode.size, listItems_length, Nat.add_comm]

/-- Driving a fresh Walker with fuel equal to the tree's visited size
delivers exactly the expected trace and ends in a canonical state with
nothing pending. -/
theorem run_Walk (root : String) (t : FsNode) :
    ∃ kf stf curf,
      run t.size (Walk root t) = (rootItems root t, ready kf stf curf) ∧
      stackItems (contStack kf stf) = [] := by
  have hlen : t.size = (stackItems (contStack (rootKind root t) [])).length + 1 := by
    have h₁ := rootItems_length root t
    rw [rootItems_eq] at h₁
    simpa using h₁.symm
  obtain ⟨kf, stf, curf, hrun, hf⟩ :=
    run_ready (stackItems (contStack (rootKind root t) [])).length
      (rootKind root t) [] (rootItem root t) rfl
  refine ⟨kf, stf, curf, ?_, hf⟩
  rw [hlen, run, Step_Walk]
  simp only [hrun]
  simp [ready, rootItems_eq]

/-- Valid directory entry name: the real filesystem provides non-empty
names that contain no path separator. -/
def goodNameB (s : String) : Bool := decide (s ≠ "") && decide ('/' ∉ s.data)

/-- Strict lexical order on character lists, comparing code points, the
byte-lexical order Go uses to sort directory listings. -/
def lexLt : List Char → List Char → Bool
  | [], [] => false
  | [], _ :: _ => true
  | _ :: _, [] => false
  | c :: l, d :: m =>
    if c.toNat < d.toNat then true
    else if d.toNat < c.toNat then false
    else lexLt l m

/-- Nothing is lexically below itself. -/
theorem lexLt_irrefl : ∀ l : List Char, lexLt l l = false
  | [] => rfl
  | c :: l => by simp [lexLt, lexLt_irrefl l]

/-- Strictly sorted list of strings: the listing order the real ReadDir
guarantees (sorted by name, and a directory cannot hold two entries of
the same name). -/
def sortedB (l : List String) : Bool :=
  decide (l.Pairwise (fun a b => lexLt a.data b.data = true))

mutual
/-- Well-formed tree: every name valid, every readable listing strictly
sorted.  The children of an unreadable directory are never visited, so
nothing is required of them. -/
def wfNodeB : FsNode → Bool
  | .file n => goodNameB n
  | .statErr n _ => goodNameB n
  | .badDir n _ _ => goodNameB n
  | .dir n cs => goodNameB n && sortedB cs.names && wfListB cs

/-- Well-formedness of every node of a sibling list. -/
def wfListB : FsList → Bool
  | .nil => true
  | .cons n ns => wfNodeB n && wfListB ns
end

mutual
/-- Tree with no access errors: no stat failures, no unreadable
directories. -/
def errFreeB : FsNode → Bool
  | .file _ => true
  | .statErr _ _ => false
  | .badDir _ _ _ => false
  | .dir _ cs => errFreeListB cs

/-- Error-freedom of every node of a sibling list. -/
def errFreeListB : FsList → Bool
  | .nil => true
  | .cons n ns => errFreeB n && errFreeListB ns
end

/-- Character list of a built path: parent characters, the separator,
then the name. -/
theorem joinPath_data (p n : String) : (joinPath p n).data = p.data ++ '/' :: n.data := by
  simp [joinPath, String.data_append]

/-- Suffix that can follow a complete entry name inside a path: nothing,
or a separator and more. -/
def sepSuffix (r : List Char) : Prop := r = [] ∨ ∃ r₂, r = '/' :: r₂

/-- First segment of a character list, up to the first separator. -/
def firstSeg : List Char → List Char
  | [] => []
  | c :: l => if c = '/' then [] else c :: firstSeg l

/-- A separator-free segment followed by a separator suffix is read back
whole by firstSeg. -/
theorem firstSeg_append {l r : List Char} (hl : '/' ∉ l) (hr : sepSuffix r) :
    firstSeg (l ++ r) = l := by
  induction l with
  | nil =>
    rcases hr with h | ⟨r₂, h⟩ <;> subst h <;> simp [firstSeg]
  | cons c l ih =>
    have hc : ¬ c = '/' := fun h => hl (h ▸ List.mem_cons_self c l)
    have hm : '/' ∉ l := fun h => hl (List.mem_cons_of_mem c h)
    simp [firstSeg, hc, ih hm]

/-- Two path tails that both start with a separator-free name followed
by a separator suffix agree on the name. -/
theorem seg_eq {nm₁ nm₂ : String} {r₁ r₂ : List Char}
    (h : nm₁.data ++ r₁ = nm₂.data ++ r₂)
    (h₁ : '/' ∉ nm₁.data) (h₂ : '/' ∉ nm₂.data)
    (s₁ : sepSuffix r₁) (s₂ : sepSuffix r₂) : nm₁ = nm₂ := by
  apply String.ext
  calc nm₁.data = firstSeg (nm₁.data ++ r₁) := (firstSeg_append h₁ s₁).symm
    _ = firstSeg (nm₂.data ++ r₂) := by rw [h]
    _ = nm₂.data := firstSeg_append h₂ s₂

mutual
/-- Every item of a node's trace has a path of the shape
parent, separator, node name, then a separator suffix. -/
theorem nodeItems_shape : ∀ (p : String) (n : FsNode) (it : Item), it ∈ nodeItems p n →
    ∃ r, it.path.data = p.data ++ '/' :: (n.name.data ++ r) ∧ sepSuffix r
  | p, .file nm, it => by
    intro h
    simp [nodeItems] at h
    subst h
    exact ⟨[], by simp [mkItem, FsNode.name, joinPath_data], Or.inl rfl⟩
  | p, .statErr nm e, it => by
    intro h
    simp [nodeItems] at h
    subst h
    exact ⟨[], by simp [mkItem, FsNode.name, joinPath_data], Or.inl rfl⟩
  | p, .badDir nm e cs, it => by
    intro h
    simp [nodeItems] at h
    subst h
    exact ⟨[], by simp [mkItem, FsNode.name, joinPath_data], Or.inl rfl⟩
  | p, .dir nm cs, it => by
    intro h
    simp only [nodeItems, List.mem_cons] at h
    rcases h with h | h
    · subst h
      exact ⟨[], by simp [mkItem, FsNode.name, joinPath_data], Or.inl rfl⟩
    · obtain ⟨nm₂, _, r₂, hp, hs⟩ := listItems_shape (joinPath p nm) cs it h
      refine ⟨'/' :: (nm₂.data ++ r₂), ?_, Or.inr ⟨_, rfl⟩⟩
      rw [hp, joinPath_data]
      simp [FsNode.name]

/-- Every item of a sibling-list trace has a path of the shape parent,
separator, some sibling name of the list, then a separator suffix. -/
theorem listItems_shape : ∀ (p : String) (cs : FsList) (it : Item), it ∈ listItems p cs →
    ∃ nm, nm ∈ cs.names ∧ ∃ r, it.path.data = p.data ++ '/' :: (nm.data ++ r) ∧ sepSuffix r
  | p, .nil, it => by intro h; simp [listItems] at h
  | p, .cons n ns, it => by
    intro h
    simp only [listItems, List.mem_append] at h
    rcases h with h | h
    · obtain ⟨r, hp, hs⟩ := nodeItems_shape p n it h
      exact ⟨n.name, by simp [FsList.names], r, hp, hs⟩
    · obtain ⟨nm, hnm, r, hp, hs⟩ := listItems_shape p ns it h
      exact ⟨nm, by simp [FsList.names, hnm], r, hp, hs⟩
end

/-- Well-formedness gives a valid own name. -/
theorem wfNodeB_goodName : ∀ {n : FsNode}, wfNodeB n = true → goodNameB n.name = true := by
  intro n h
  cases n <;> simp [wfNodeB, FsNode.name] at h ⊢ <;> simp [goodNameB] at h ⊢ <;> tauto

/-- Well-formedness of a sibling list gives valid names throughout the
listing. -/
theorem wfListB_names : ∀ (cs : FsList), wfListB cs = true →
    ∀ nm ∈ cs.names, goodNameB nm = true
  | .nil, _, nm => by simp [FsList.names]
  | .cons n ns, h, nm => by
    rw [wfListB, Bool.and_eq_true] at h
    intro hm
    rw [FsList.names, List.mem_cons] at hm
    rcases hm with hm | hm
    · exact hm ▸ wfNodeB_goodName h.1
    · exact wfListB_names ns h.2 nm hm

/-- Valid names are separator-free. -/
theorem goodNameB_no_sep {s : String} (h : goodNameB s = true) : '/' ∉ s.data := by
  simp [goodNameB] at h
  exact h.2

/-- An item of a subtree trace never has the parent directory's own
path: its path is strictly longer. -/
theorem mem_listItems_path_ne {dp : String} {cs : FsList} {it : Item}
    (h : it ∈ listItems dp cs) : it.path ≠ dp := by
  obtain ⟨nm, _, r, hp, _⟩ := listItems_shape dp cs it h
  intro hc
  have : it.path.data = dp.data := by rw [hc]
  rw [hp] at this
  have hlen := congrArg List.length this
  simp at hlen

mutual
/-- Paths of a well-formed node's trace are pairwise distinct. -/
theorem nodeItems_nodup : ∀ (p : String) (n : FsNode), wfNodeB n = true →
    ((nodeItems p n).map Item.path).Nodup
  | p, .file nm, _ => by simp [nodeItems]
  | p, .statErr nm e, _ => by simp [nodeItems]
  | p, .badDir nm e cs, _ => by simp [nodeItems]
  | p, .dir nm cs, h => by
    rw [wfNodeB, Bool.and_eq_true, Bool.and_eq_true] at h
    obtain ⟨⟨_, hsort⟩, hwf⟩ := h
    rw [nodeItems]
    simp only [List.map_cons, List.nodup_cons]
    constructor
    · intro hc
      rw [List.mem_map] at hc
      obtain ⟨it, hit, hpath⟩ := hc
      exact mem_listItems_path_ne hit hpath
    · exact listItems_nodup (joinPath p nm) cs hsort hwf

/-- Paths of a well-formed, strictly sorted sibling-list trace are
pairwise distinct: sibling subtrees live under distinct first
segments. -/
theorem listItems_nodup : ∀ (p : String) (cs : FsList),
    sortedB cs.names = true → wfListB cs = true →
    ((listItems p cs).map Item.path).Nodup
  | p, .nil, _, _ => by simp [listItems]
  | p, .cons n ns, hsort, hwf => by
    rw [wfListB, Bool.and_eq_true] at hwf
    obtain ⟨hn, hns⟩ := hwf
    rw [sortedB] at hsort
    have hpair := of_decide_eq_true hsort
    rw [FsList.names, List.pairwise_cons] at hpair
    have hsort₂ : sortedB ns.names = true := by
      rw [sortedB]; exact decide_eq_true hpair.2
    rw [listItems, List.map_append]
    refine List.Nodup.append (nodeItems_nodup p n hn)
      (listItems_nodup p ns hsort₂ hns) ?_
    intro q hq₁ hq₂
    rw [List.mem_map] at hq₁ hq₂
    obtain ⟨it₁, hit₁, hp₁⟩ := hq₁
    obtain ⟨it₂, hit₂, hp₂⟩ := hq₂
    obtain ⟨r₁, hd₁, hs₁⟩ := nodeItems_shape p n it₁ hit₁
    obtain ⟨nm₂, hnm₂, r₂, hd₂, hs₂⟩ := listItems_shape p ns it₂ hit₂
    have hq : it₁.path = it₂.path := by rw [hp₁, hp₂]
    have hdd : p.data ++ '/' :: (n.name.data ++ r₁) = p.data ++ '/' :: (nm₂.data ++ r₂) := by
      rw [← hd₁, ← hd₂, hq]
    have htail : n.name.data ++ r₁ = nm₂.data ++ r₂ := by
      have := List.append_cancel_left hdd
      injection this
    have hname : n.name = nm₂ :=
      seg_eq htail (goodNameB_no_sep (wfNodeB_goodName hn))
        (goodNameB_no_sep (wfListB_names ns hns nm₂ hnm₂)) hs₁ hs₂
    have hlt := hpair.1 nm₂ hnm₂
    rw [hname] at hlt
    rw [lexLt_irrefl] at hlt
    exact absurd hlt (by simp)
end

/-- Paths of the full expected trace of a well-formed tree are pairwise
distinct. -/
theorem rootItems_nodup (root : String) (t : FsNode) (h : wfNodeB t = true) :
    ((rootItems root t).map Item.path).Nodup := by
  cases t with
  | dir nm cs =>
    rw [wfNodeB, Bool.and_eq_true, Bool.and_eq_true] at h
    obtain ⟨⟨_, hsort⟩, hwf⟩ := h
    rw [rootItems]
    simp only [List.map_cons, List.nodup_cons]
    refine ⟨?_, listItems_nodup root cs hsort hwf⟩
    intro hc
    rw [List.mem_map] at hc
    obtain ⟨it, hit, hpath⟩ := hc
    exact mem_listItems_path_ne hit (by simpa [rootItem] using hpath)
  | file nm => simp [rootItems]
  | statErr nm e => simp [rootItems]
  | badDir nm e cs => simp [rootItems]

mutual
/-- Paths of every node of the subtree below parent p, in pre-order,
including the children recorded under an unreadable directory. -/
def treePaths (p : String) : FsNode → List String
  | .file n => [joinPath p n]
  | .statErr n _ => [joinPath p n]
  | .dir n cs => joinPath p n :: treePathsL (joinPath p n) cs
  | .badDir n _ cs => joinPath p n :: treePathsL (joinPath p n) cs

/-- Paths of every node below the members of a sibling list. -/
def treePathsL (p : String) : FsList → List String
  | .nil => []
  | .cons n ns => treePaths p n ++ treePathsL p ns
end

/-- Paths of every node of the whole tree, the root path first. -/
def rootTreePaths (root : String) : FsNode → List String
  | .dir _ cs => root :: treePathsL root cs
  | .badDir _ _ cs => root :: treePathsL root cs
  | _ => [root]

mutual
/-- On an error-free subtree the delivered paths are exactly the paths
of every node. -/
theorem nodeItems_paths : ∀ (p : String) (n : FsNode), errFreeB n = true →
    (nodeItems p n).map Item.path = treePaths p n
  | _, .file _, _ => rfl
  | _, .statErr _ _, h => by simp [errFreeB] at h
  | _, .badDir _ _ _, h => by simp [errFreeB] at h
  | p, .dir nm cs, h => by
    rw [errFreeB] at h
    simp [nodeItems, treePaths, mkItem, listItems_paths (joinPath p nm) cs h]

/-- Sibling-list form of the path coverage. -/
theorem listItems_paths : ∀ (p : String) (cs : FsList), errFreeListB cs = true →
    (listItems p cs).map Item.path = treePathsL p cs
  | _, .nil, _ => rfl
  | p, .cons n ns, h => by
    rw [errFreeListB, Bool.and_eq_true] at h
    simp [listItems, treePathsL, nodeItems_paths p n h.1, listItems_paths p ns h.2]
end

/-- Path coverage at the root. -/
theorem rootItems_paths (root : String) (t : FsNode) (h : errFreeB t = true) :
    (rootItems root t).map Item.path = rootTreePaths root t := by
  cases t with
  | dir nm cs =>
    rw [errFreeB] at h
    simp [rootItems, rootTreePaths, rootItem, mkItem, listItems_paths root cs h]
  | file nm => rfl
  | statErr nm e => simp [errFreeB] at h
  | badDir nm e cs => simp [errFreeB] at h

mutual
/-- Tree with the recorded children of every unreadable directory
removed: the walk never visits them. -/
def eraseBad : FsNode → FsNode
  | .file n => .file n
  | .statErr n e => .statErr n e
  | .dir n cs => .dir n (eraseBadL cs)
  | .badDir n e _ => .badDir n e .nil

/-- Removal of unreadable children inside a sibling list. -/
def eraseBadL : FsList → FsList
  | .nil => .nil
  | .cons n ns => .cons (eraseBad n) (eraseBadL ns)
end

mutual
/-- Removing the children of unreadable directories leaves the trace
unchanged: the walk never delivers them. -/
theorem nodeItems_eraseBad : ∀ (p : String) (n : FsNode),
    nodeItems p (eraseBad n) = nodeItems p n
  | _, .file _ => rfl
  | _, .statErr _ _ => rfl
  | _, .badDir _ _ _ => rfl
  | p, .dir nm cs => by
    simp [eraseBad, nodeItems, mkItem, listItems_eraseBad (joinPath p nm) cs]

/-- Sibling-list form of the trace invariance. -/
theorem listItems_eraseBad : ∀ (p : String) (cs : FsList),
    listItems p (eraseBadL cs) = listItems p cs
  | _, .nil => rfl
  | p, .cons n ns => by
    simp [eraseBadL, listItems, nodeItems_eraseBad p n, listItems_eraseBad p ns]
end

/-- Trace invariance at the root. -/
theorem rootItems_eraseBad (root : String) (t : FsNode) :
    rootItems root (eraseBad t) = rootItems root t := by
  cases t <;> simp [eraseBad, rootItems, rootItem, mkItem, listItems_eraseBad]

/-- Inversion of a false Step: it can only come from the closed item
channel, and it stores the zero item with ok false. -/
theorem step_false_inv {w w₂ : Walker} (h : Step w = some (w₂, false)) :
    w₂.ok = false ∧ w₂.producer = .closed ∧ w₂.cur = zeroItem := by
  obtain ⟨pr, rb, cur, ok, ret⟩ := w
  cases ok <;> cases pr <;> cases rb <;> simp [Step, settle] at h <;>
    (try rw [← h]) <;> (try simp_all [resume]) <;>
    (split at h <;> simp_all) <;> (cases h; exact ⟨rfl, rfl, rfl⟩)

/-- Step on an exhausted Walker: ok is false, so no directive is sent,
and the closed channel returns false again at once. -/
theorem step_dead {w : Walker} (h₁ : w.ok = false) (h₂ : w.producer = .closed) :
    Step w = some ({ w with cur := zeroItem, ok := false, ret := none }, false) := by
  obtain ⟨pr, rb, cur, ok, ret⟩ := w
  cases ok <;> simp_all [Step]

/-- The next n Steps all return false (without ever blocking). -/
def stepsAlwaysFalse : Nat → Walker → Prop
  | 0, _ => True
  | n+1, w => ∃ w₂, Step w = some (w₂, false) ∧ stepsAlwaysFalse n w₂

/-- Step from a canonical state whose current entry is a directory with
a SkipDir directive requested: the directive is sent, the producer does
not descend and continues with the pending stack. -/
theorem Step_ready_skip (dp : String) (cs : FsList) (st : Stack) (cur : Item) :
    Step { ready (.dirK dp cs) st cur with ret := some .skipDir } =
      match popNext st with
      | none => some (deadW, false)
      | some ((p, n), st₂) => some (ready (mkKind p n) st₂ (mkItem p n), true) := by
  cases h : popNext st with
  | none => simp [Step, ready, resume, afterDirective, settle, deadW, h]
  | some pr =>
    obtain ⟨⟨p, n⟩, st₂⟩ := pr
    simp [Step, ready, resume, afterDirective, settle, h]

/-- Driving after a SkipDir on a directory delivers exactly the pending
items of the stack: none of the directory's children. -/
theorem run_ready_skip (dp : String) (cs : FsList) (st : Stack) (cur : Item) (n : Nat)
    (hn : n = (stackItems st).length) :
    (run n { ready (.dirK dp cs) st cur with ret := some .skipDir }).1 = stackItems st := by
  cases n with
  | zero =>
    have hnil : stackItems st = [] := List.length_eq_zero.mp hn.symm
    simp [run, hnil]
  | succ m =>
    have hne : stackItems st ≠ [] := by
      intro hc; rw [hc] at hn; simp at hn
    obtain ⟨p, nd, st₂, hpop⟩ := popNext_of_ne hne
    have hdec : stackItems st = mkItem p nd :: stackItems (contStack (mkKind p nd) st₂) := by
      rw [popNext_some hpop, nodeItems_eq_cons]
    have hlen : m = (stackItems (contStack (mkKind p nd) st₂)).length := by
      rw [hdec] at hn; simpa using hn
    obtain ⟨kf, stf, curf, hrun, _⟩ := run_ready m (mkKind p nd) st₂ (mkItem p nd) hlen
    rw [run, Step_ready_skip, hpop]
    simp only [hrun]
    simp [ready, hdec]

/-- The settle transition touches only the producer and the buffer,
never the Walker struct fields. -/
theorem settle_preserves (w : Walker) :
    (settle w).cur = w.cur ∧ (settle w).ok = w.ok ∧ (settle w).ret = w.ret := by
  obtain ⟨pr, rb, cur, ok, ret⟩ := w
  cases pr <;> cases rb <;> simp [settle]

/-- C1: for every well-formed (valid names, listings strictly sorted)
and error-free directory tree, driving the Walker created by Walk(root)
to natural exhaustion delivers each node of the subtree exactly once:
the trace is the pre-order flatten with the children of each directory
in listing — hence lexical — order, its paths cover exactly every
node's path and are pairwise distinct, exactly size-many Steps return
true, the very first Step yields the root path itself, and the next
Step returns false. -/
theorem C1_walk_preorder_exhaustive (root : String) (t : FsNode)
    (hwf : wfNodeB t = true) (herr : errFreeB t = true) :
    (run t.size (Walk root t)).1 = rootItems root t ∧
    (run t.size (Walk root t)).1.map Item.path = rootTreePaths root t ∧
    ((run t.size (Walk root t)).1.map Item.path).head? = some root ∧
    ((run t.size (Walk root t)).1.map Item.path).Nodup ∧
    (run t.size (Walk root t)).1.length = t.size ∧
    ∃ w₂, Step (run t.size (Walk root t)).2 = some (w₂, false) := by
  obtain ⟨kf, stf, curf, hrun, hf⟩ := run_Walk root t
  rw [hrun]
  refine ⟨rfl, rootItems_paths root t herr, ?_, rootItems_nodup root t hwf,
    rootItems_length root t, ⟨deadW, Step_ready_done kf stf curf hf⟩⟩
  rw [rootItems_eq]
  simp [rootItem]

/-- C1 witness: the spec example tree d containing directory a with
file x, and file b: hypotheses hold and the delivered paths are
exactly d, d/a, d/a/x, d/b. -/
theorem C1_walk_preorder_exhaustive_witness :
    wfNodeB (FsNode.dir "d" (.cons (.dir "a" (.cons (.file "x") .nil)) (.cons (.file "b") .nil))) = true ∧
    errFreeB (FsNode.dir "d" (.cons (.dir "a" (.cons (.file "x") .nil)) (.cons (.file "b") .nil))) = true ∧
    (run (FsNode.dir "d" (.cons (.dir "a" (.cons (.file "x") .nil)) (.cons (.file "b") .nil))).size
        (Walk "d" (FsNode.dir "d" (.cons (.dir "a" (.cons (.file "x") .nil)) (.cons (.file "b") .nil))))).1.map Item.path =
      ["d", "d/a", "d/a/x", "d/b"] :=
  ⟨by decide, by decide, by
    have h := (C1_walk_preorder_exhaustive "d"
      (FsNode.dir "d" (.cons (.dir "a" (.cons (.file "x") .nil)) (.cons (.file "b") .nil)))
      (by decide) (by decide)).1
    rw [h]
    decide⟩

/-- C2: the claim fails on the code.  When Stop is called before the
first Step, the producer is already blocked sending the root item, and
Stop's sentinel sits in the retch buffer unread until after that item
is handed over: the first Step still returns true and delivers the
root; only the following Step returns false.  This theorem evaluates
the code at the failing input. -/
theorem C2_stop_before_first_step_still_delivers :
    (Step (Stop (Walk "d" (FsNode.dir "d" (.cons (.file "a") .nil))))).map
        (fun r => (Path r.1, r.2)) = some ("d", true) ∧
    ((Step (Stop (Walk "d" (FsNode.dir "d" (.cons (.file "a") .nil))))).bind
        (fun r => Step r.1)).map (fun r => r.2) = some false := by decide

/-- C3: when the current entry is the directory at path dp with
children cs and remaining work st, SkipDir followed by driving delivers
exactly the items pending on the stack — the first of which is the next
sibling (or an ancestor's sibling) — and, as long as no pending path
lies below dp, none of the skipped directory's descendants is ever
delivered. -/
theorem C3_skipdir_prunes_descendants (dp : String) (cs : FsList) (st : Stack)
    (cur : Item) (n : Nat) (hcur : cur.info = some { isDir := true })
    (hn : n = (stackItems st).length)
    (hout : ∀ it ∈ stackItems st, ¬ (dp.data ++ ['/']) <+: it.path.data) :
    ∃ w₂, SkipDir (ready (.dirK dp cs) st cur) = some w₂ ∧
      (run n w₂).1 = stackItems st ∧
      (∀ p₀ nd st₂, popNext st = some ((p₀, nd), st₂) →
          (run n w₂).1.head? = some (mkItem p₀ nd)) ∧
      (∀ it ∈ (run n w₂).1, ∀ d ∈ listItems dp cs, it.path ≠ d.path) := by
  refine ⟨{ ready (.dirK dp cs) st cur with ret := some .skipDir }, ?_, ?_, ?_, ?_⟩
  · simp [SkipDir, ready, hcur]
  · exact run_ready_skip dp cs st cur n hn
  · intro p₀ nd st₂ hpop
    rw [run_ready_skip dp cs st cur n hn, popNext_some hpop, nodeItems_eq_cons]
    rfl
  · intro it hit d hd
    rw [run_ready_skip dp cs st cur n hn] at hit
    obtain ⟨nm, _, r, hpd, _⟩ := listItems_shape dp cs d hd
    intro hc
    apply hout it hit
    rw [hc, hpd]
    exact ⟨nm.data ++ r, by simp⟩

/-- C3 witness: current entry is directory d/a with child x, the stack
holds the remaining sibling b of the parent d; after SkipDir the drive
delivers d/b only. -/
theorem C3_skipdir_prunes_descendants_witness :
    ({ path := "d/a", info := some { isDir := true }, err := none } : Item).info =
      some { isDir := true } ∧
    1 = (stackItems [("d", FsList.cons (.file "b") .nil)]).length ∧
    (∀ it ∈ stackItems [("d", FsList.cons (.file "b") .nil)],
      ¬ (("d/a").data ++ ['/']) <+: it.path.data) ∧
    (∃ w₂, SkipDir (ready (.dirK "d/a" (.cons (.file "x") .nil))
          [("d", FsList.cons (.file "b") .nil)]
          { path := "d/a", info := some { isDir := true }, err := none }) = some w₂ ∧
      (run 1 w₂).1 = stackItems [("d", FsList.cons (.file "b") .nil)] ∧
      (∀ p₀ nd st₂,
        popNext [("d", FsList.cons (.file "b") .nil)] = some ((p₀, nd), st₂) →
          (run 1 w₂).1.head? = some (mkItem p₀ nd)) ∧
      (∀ it ∈ (run 1 w₂).1,
        ∀ d ∈ listItems "d/a" (FsList.cons (.file "x") .nil), it.path ≠ d.path)) :=
  ⟨rfl, by decide, by decide,
    C3_skipdir_prunes_descendants "d/a" (.cons (.file "x") .nil)
      [("d", FsList.cons (.file "b") .nil)]
      { path := "d/a", info := some { isDir := true }, err := none } 1
      rfl (by decide) (by decide)⟩

/-- C4: once a call to Step has returned false, every subsequent call
to Step also returns false. -/
theorem C4_exhaustion_finality (w w₂ : Walker) (h : Step w = some (w₂, false)) :
    ∀ n, stepsAlwaysFalse n w₂ := by
  obtain ⟨h₁, h₂, _⟩ := step_false_inv h
  suffices key : ∀ n (v : Walker), v.ok = false → v.producer = .closed →
      stepsAlwaysFalse n v from fun n => key n w₂ h₁ h₂
  intro n
  induction n with
  | zero => intro v _ _; trivial
  | succ m ih =>
    intro v hv₁ hv₂
    refine ⟨_, step_dead hv₁ hv₂, ih _ rfl ?_⟩
    simp [hv₂]

/-- C4 witness: the walk of a single file is exhausted after one false
Step; the following Steps keep returning false. -/
theorem C4_exhaustion_finality_witness :
    Step (run 1 (Walk "d" (FsNode.file "f"))).2 = some (deadW, false) ∧
    stepsAlwaysFalse 3 deadW :=
  ⟨by decide,
    C4_exhaustion_finality (run 1 (Walk "d" (FsNode.file "f"))).2 deadW (by decide) 3⟩

/-- C5: evaluation at the failing input.  When the current entry
carries an error and nil metadata (a root whose lstat failed), SkipDir
dereferences the nil os.FileInfo interface and panics (result none),
although the claim — and SkipDir's own documentation — promise a no-op;
on a file, and before any Step, SkipDir is indeed a no-op. -/
theorem C5_skipdir_nil_metadata_panics :
    (Step (Walk "x" (FsNode.statErr "x" "EACCES"))).map
        (fun r => (Stat r.1, Err r.1, r.2)) = some (none, some "EACCES", true) ∧
    (Step (Walk "x" (FsNode.statErr "x" "EACCES"))).map (fun r => SkipDir r.1) =
      some none ∧
    SkipDir (Walk "x" (FsNode.statErr "x" "EACCES")) =
      some (Walk "x" (FsNode.statErr "x" "EACCES")) ∧
    (Step (Walk "d" (FsNode.file "f"))).bind (fun r => SkipDir r.1) =
      (Step (Walk "d" (FsNode.file "f"))).map (fun r => r.1) := by decide

/-- C6 counterexample: after the walk of the single file f under root d
is exhausted, the accessors do not keep the values of the last
delivered entry (path d, file metadata, no error): the receive from the
closed channel overwrote cur with the zero item, so they return the
empty path and none. -/
theorem C6_counterexample_accessors_zeroed :
    Path (run 1 (Walk "d" (FsNode.file "f"))).2 = "d" ∧
    (Step (run 1 (Walk "d" (FsNode.file "f"))).2).map
        (fun r => (Path r.1, Stat r.1, Err r.1, r.2)) ≠
      some ("d", some { isDir := false }, none, false) ∧
    (Step (run 1 (Walk "d" (FsNode.file "f"))).2).map
        (fun r => (Path r.1, Stat r.1, Err r.1, r.2)) =
      some ("", none, none, false) := by decide

/-- C6 amended: after Step has returned false, Path, Stat and Err
return the zero values — empty path, no metadata, no error — because
the receive from the closed item channel overwrites the current entry
with the zero item. -/
theorem C6_amended_accessors_zero_after_false (w w₂ : Walker)
    (h : Step w = some (w₂, false)) :
    Path w₂ = "" ∧ Stat w₂ = none ∧ Err w₂ = none := by
  obtain ⟨_, _, hcur⟩ := step_false_inv h
  exact ⟨by simp [Path, hcur, zeroItem], by simp [Stat, hcur, zeroItem],
    by simp [Err, hcur, zeroItem]⟩

/-- C6 witness: the amended statement at the concrete exhausted walk of
a single file. -/
theorem C6_amended_witness :
    Step (run 1 (Walk "d" (FsNode.file "f"))).2 = some (deadW, false) ∧
    (Path deadW = "" ∧ Stat deadW = none ∧ Err deadW = none) :=
  ⟨by decide,
    C6_amended_accessors_zero_after_false (run 1 (Walk "d" (FsNode.file "f"))).2 deadW
      (by decide)⟩

/-- C7: a failure to read a node's metadata or listing is attached to
that node's entry and never makes Step itself return false: the walk of
any tree, errors included, delivers the full expected trace — in which
a stat-failed node carries nil metadata and its error, and an
unreadable directory carries its metadata and its error — continues
past unreadable directories, whose recorded children never change the
trace, and returns false only at the end of the sequence. -/
theorem C7_errors_attached_walk_continues (root : String) (t : FsNode) (n : Nat)
    (hn : n = t.size) :
    (run n (Walk root t)).1 = rootItems root t ∧
    (run n (Walk root t)).1.length = t.size ∧
    rootItems root (eraseBad t) = rootItems root t ∧
    (∀ p nm e cs, nodeItems p (.badDir nm e cs) =
      [{ path := joinPath p nm, info := some { isDir := true }, err := some e }]) ∧
    (∀ p nm e, nodeItems p (.statErr nm e) =
      [{ path := joinPath p nm, info := none, err := some e }]) ∧
    (∃ w₂, Step (run n (Walk root t)).2 = some (w₂, false)) := by
  subst hn
  obtain ⟨kf, stf, curf, hrun, hf⟩ := run_Walk root t
  rw [hrun]
  exact ⟨rfl, rootItems_length root t, rootItems_eraseBad root t,
    fun p nm e cs => by simp [nodeItems, mkItem],
    fun p nm e => by simp [nodeItems, mkItem],
    ⟨deadW, Step_ready_done kf stf curf hf⟩⟩

/-- C7 witness: tree d with the unreadable directory a (recorded child
x, never delivered, error attached to the entry of a) and file b: the
delivered entries are d, then a with its error, then b. -/
theorem C7_errors_attached_walk_continues_witness :
    3 = (FsNode.dir "d" (.cons (.badDir "a" "EACCES" (.cons (.file "x") .nil)) (.cons (.file "b") .nil))).size ∧
    (run 3 (Walk "d" (FsNode.dir "d" (.cons (.badDir "a" "EACCES" (.cons (.file "x") .nil)) (.cons (.file "b") .nil))))).1.map
        (fun it => (it.path, it.err)) =
      [("d", none), ("d/a", some "EACCES"), ("d/b", none)] :=
  ⟨by decide, by
    have h := (C7_errors_attached_walk_continues "d"
      (FsNode.dir "d" (.cons (.badDir "a" "EACCES" (.cons (.file "x") .nil)) (.cons (.file "b") .nil)))
      3 (by decide)).1
    rw [h]
    decide⟩

/-- C8: Stop and SkipDir leave the current entry and its validity flag
unchanged (Stop also when called repeatedly), the accessors are pure
reads of the current entry, and Stop is a total non-blocking operation,
safe before any Step; only Step updates cur and ok. -/
theorem C8_only_step_changes_current (w : Walker) :
    (Stop w).cur = w.cur ∧ (Stop w).ok = w.ok ∧
    (Stop (Stop w)).cur = w.cur ∧ (Stop (Stop w)).ok = w.ok ∧
    (∀ w₂, SkipDir w = some w₂ → w₂.cur = w.cur ∧ w₂.ok = w.ok) ∧
    Path (Stop w) = Path w ∧ Stat (Stop w) = Stat w ∧ Err (Stop w) = Err w := by
  have hstop : ∀ v : Walker, (Stop v).cur = v.cur ∧ (Stop v).ok = v.ok := by
    intro v
    obtain ⟨pr, rb, cur, ok, ret⟩ := v
    cases rb <;> cases pr <;> simp [Stop, settle]
  have hskip : ∀ w₂, SkipDir w = some w₂ → w₂.cur = w.cur ∧ w₂.ok = w.ok := by
    intro w₂ h
    rw [SkipDir] at h
    split at h
    · cases hinfo : w.cur.info with
      | none => rw [hinfo] at h; simp at h
      | some i =>
        rw [hinfo] at h
        by_cases hd : i.isDir <;> simp [hd] at h <;> rw [← h] <;> exact ⟨rfl, rfl⟩
    · injection h with h
      rw [← h]; exact ⟨rfl, rfl⟩
  obtain ⟨h₁, h₂⟩ := hstop w
  obtain ⟨h₃, h₄⟩ := hstop (Stop w)
  exact ⟨h₁, h₂, by rw [h₃, h₁], by rw [h₄, h₂], hskip,
    by simp [Path, h₁], by simp [Stat, h₁], by simp [Err, h₁]⟩

/-- C8 witness: the frame condition of SkipDir at a fresh Walker, where
it is a no-op. -/
theorem C8_only_step_changes_current_witness :
    SkipDir (Walk "d" (FsNode.file "f")) = some (Walk "d" (FsNode.file "f")) ∧
    ((Walk "d" (FsNode.file "f")).cur = (Walk "d" (FsNode.file "f")).cur ∧
      (Walk "d" (FsNode.file "f")).ok = (Walk "d" (FsNode.file "f")).ok) :=
  ⟨by decide,
    (C8_only_step_changes_current (Walk "d" (FsNode.file "f"))).2.2.2.2.1
      (Walk "d" (FsNode.file "f")) (by decide)⟩

/-- C9: Join returns the empty string when every element is empty
(including the empty list), and prepending an empty element never
changes the result — for any separator and any Clean function. -/
theorem C9_join_empty_elements (clean : String → String) (sep : String) :
    (∀ elems : List String, (∀ e ∈ elems, e = "") → Join clean sep elems = "") ∧
    (∀ elems : List String, Join clean sep ("" :: elems) = Join clean sep elems) := by
  constructor
  · intro elems h
    induction elems with
    | nil => rfl
    | cons e rest ih =>
      have he : e = "" := h e (List.mem_cons_self e rest)
      subst he
      rw [Join, if_neg (by simp)]
      exact ih fun x hx => h x (List.mem_cons_of_mem _ hx)
  · intro elems
    rw [Join]
    simp

/-- C9 witness: the all-empty case and the empty-prefix case with the
identity Clean and the slash separator. -/
theorem C9_join_empty_elements_witness :
    (∀ e ∈ (["", ""] : List String), e = "") ∧
    Join id "/" ["", ""] = "" ∧
    Join id "/" ("" :: ["a"]) = Join id "/" ["a"] :=
  ⟨by decide, (C9_join_empty_elements id "/").1 ["", ""] (by decide),
    (C9_join_empty_elements id "/").2 ["a"]⟩

/-- C10: before the first Step on a freshly constructed Walker the
accessors return definite zero values: Path the empty string, Stat no
metadata, Err no error. -/
theorem C10_fresh_walker_zero_accessors (root : String) (t : FsNode) :
    Path (Walk root t) = "" ∧ Stat (Walk root t) = none ∧ Err (Walk root t) = none :=
  ⟨rfl, rfl, rfl⟩

end KrFs
